import Mathlib

/-!
Verification development for the ipie AFQMC estimator-handling core.

The Python sources embedded here are:
* `src/ipie/estimators/handler.py` (the `EstimatorHandler` class and the
  `EstimatorHelper` declaration),
* the parameter constants of `src/ipie/qmc/tests/test_afqmc_multi_det_batch.py`.

Code of the repository that the claims need but that is not under `src/`
(the batched/legacy propagation pipelines and the local-energy estimator
family, of which only tests are present) is modelled from the
specification; every such definition carries a doc comment starting with
`Modelled from the spec:`.

Python-level fallibility (NameError, AttributeError, KeyError, ValueError,
IndexError, RuntimeError) is made explicit through `PyError`/`PyResult`;
file-system side effects are recorded as traces of `FileOp`s against a
file system modelled as the list of existing file names.  Numeric data is
modelled with exact arithmetic (`ℚ` and pairs of `ℚ` for complex values),
so "equal to floating-point tolerance" statements are settled as exact
equalities, which imply agreement to every tolerance.
-/

namespace Ipie

/-- Complex scalars are modelled exactly as pairs of rationals
`(real part, imaginary part)`; addition is the `Prod` pointwise addition. -/
abbrev Cplx : Type := ℚ × ℚ

/-- Complex multiplication on `Cplx` (the `Prod` instance is pointwise, so
the complex product is spelled out explicitly). -/
def cmul (a b : Cplx) : Cplx :=
  (a.1 * b.1 - a.2 * b.2, a.1 * b.2 + a.2 * b.1)

/-- Complex division on `Cplx` (total: division by `0` yields `0`, as for `ℚ`). -/
def cdiv (a b : Cplx) : Cplx :=
  let d : ℚ := b.1 * b.1 + b.2 * b.2
  ((a.1 * b.1 + a.2 * b.2) / d, (a.2 * b.1 - a.1 * b.2) / d)

/-- Python exceptions that the embedded handler code can raise. -/
inductive PyError : Type where
  | nameError (name : String)
  | attributeError (attr : String)
  | keyError (key : String)
  | valueError (literal : String)
  | indexError (index : Nat)
  | runtimeError (msg : String)
  deriving DecidableEq, Repr

/-- Result of running a piece of embedded Python code: a value, a raised
exception, or divergence (a `while` loop that never exits, detected by
fuel exhaustion). -/
inductive PyResult (α : Type) : Type where
  | ok (a : α)
  | err (e : PyError)
  | diverge
  deriving DecidableEq, Repr

/-- Whether a `PyResult` is a raised exception. -/
def PyResult.isErr {α : Type} : PyResult α → Bool
  | .err _ => true
  | _ => false

/-- File-system side effects performed by the handler.  `create n` is
`h5py.File(n, "w")` (create, truncating an existing file); `append n` is
an append-mode write to `n`. -/
inductive FileOp : Type where
  | create (name : String)
  | append (name : String)
  deriving DecidableEq, Repr

/-- The file system is modelled as the list of names of existing files;
`os.path.isfile f` is membership. -/
abbrev FileSystem : Type := List String

/-! ### Decimal rendering and parsing of naturals

`"%s" % index` renders the index in decimal; `int(s)` parses it back.
The embedding implements both explicitly so that the round trip can be
proved.  (`int` is modelled on non-negative digit strings only, which is
the shape every string fed to it in this code has.) -/

/-- The decimal digit character for `d` (`chr(48 + d)`). -/
def digitChar (d : Nat) : Char := Char.ofNat (48 + d)

/-- Fuel-bounded decimal digit list of a natural number, most significant
first.  Structural recursion on the fuel keeps the definition
kernel-reducible; `n + 1` units of fuel always suffice. -/
def natDigitsAux : Nat → Nat → List Char
  | 0, _ => []
  | fuel + 1, n =>
      if n < 10 then [digitChar n]
      else natDigitsAux fuel (n / 10) ++ [digitChar (n % 10)]

/-- Decimal digit list of a natural number, most significant first
(the rendering `str(n)` produces). -/
def natDigits (n : Nat) : List Char := natDigitsAux (n + 1) n

/-- Decimal string of a natural number: the model of the Python `str(n)` /
`"%s" % n` for a non-negative integer. -/
def natRepr (n : Nat) : String := ⟨natDigits n⟩

/-- Decimal string of an integer (`str(i)` / `"%s" % i` for a Python
`int`): a minus sign leads for negatives. -/
def intRepr (i : Int) : String :=
  if i < 0 then "-" ++ natRepr i.natAbs else natRepr i.natAbs

/-- Digit-accumulator loop of the decimal parser: consumes characters,
failing on the first non-digit. -/
def parseDigitsAux : List Char → Nat → Option Nat
  | [], acc => some acc
  | c :: r, acc =>
      if '0' ≤ c ∧ c ≤ '9' then parseDigitsAux r (acc * 10 + (c.toNat - 48))
      else none

/-- Decimal parse of a character list; `none` on the empty list or on any
non-digit character. -/
def parseDigits (l : List Char) : Option Nat :=
  match l with
  | [] => none
  | _ :: _ => parseDigitsAux l 0

/-- The ASCII whitespace characters that the Python `int` strips from both
ends of its argument (the full language also strips Unicode spaces, which
are outside this model). -/
def isPySpace (c : Char) : Bool :=
  decide (c = ' ' ∨ c = '\t' ∨ c = '\n' ∨ c = '\r' ∨ c = '\x0b' ∨ c = '\x0c')

/-- Stripping leading and trailing whitespace characters. -/
def stripSpaces (l : List Char) : List Char :=
  ((l.dropWhile isPySpace).reverse.dropWhile isPySpace).reverse

/-- Digit-and-underscore tail of an integer literal: after the leading
digit, every further character is a digit or a single underscore followed
by a digit. -/
def parseUnderscoredAux : List Char → Nat → Option Nat
  | [], acc => some acc
  | [c], acc =>
      if '0' ≤ c ∧ c ≤ '9' then some (acc * 10 + (c.toNat - 48)) else none
  | c :: c2 :: r, acc =>
      if c = '_' then
        if '0' ≤ c2 ∧ c2 ≤ '9' then
          parseUnderscoredAux r (acc * 10 + (c2.toNat - 48))
        else none
      else if '0' ≤ c ∧ c ≤ '9' then
        parseUnderscoredAux (c2 :: r) (acc * 10 + (c.toNat - 48))
      else none

/-- Body of an unsigned base-10 integer literal: a leading digit followed
by the digit/underscore tail. -/
def parseIntBody : List Char → Option Nat
  | [] => none
  | c :: r =>
      if '0' ≤ c ∧ c ≤ '9' then parseUnderscoredAux r (c.toNat - 48)
      else none

/-- The whitespace-stripped integer literal: an optional single sign
followed by the unsigned body. -/
def pyIntCore : List Char → Option Int
  | [] => none
  | c :: r =>
      if c = '+' then (parseIntBody r).map (fun n => (n : Int))
      else if c = '-' then (parseIntBody r).map (fun n => -(n : Int))
      else (parseIntBody (c :: r)).map (fun n => (n : Int))

/-- Model of the Python `int(s)` on base-10 ASCII numerals: whitespace may
pad both ends, one sign may lead, and digits may be grouped by single
underscores; anything else raises `ValueError`.  Unicode numerals are
outside the model; no statement below relies on their rejection — the
failure theorems only assume an ASCII letter in the string, which no
integer literal can contain. -/
def pyIntStr (s : String) : Except PyError Int :=
  match pyIntCore (stripSpaces s.data) with
  | some i => .ok i
  | none => .error (.valueError s)

/-- Model of the Python `lst[i]` on a list: `IndexError` when out of range. -/
def pyListGet {α : Type} (l : List α) (i : Nat) : Except PyError α :=
  match l.get? i with
  | some a => .ok a
  | none => .error (.indexError i)

/-- Splitting a character list at every `'.'` (keeping empty pieces), the
semantics of the Python `s.split(".")`. -/
def chSplit : List Char → List (List Char)
  | [] => [[]]
  | c :: r =>
      if c = '.' then [] :: chSplit r
      else
        match chSplit r with
        | [] => [[c]]
        | h :: t => (c :: h) :: t

/-- Model of the Python `s.split(".")` on strings. -/
def pySplitDot (s : String) : List String := (chSplit s.data).map String.mk

/-- The output file name `basename + ".%s.h5" % index` built by
`EstimatorHandler.__init__` (the extension is the literal `"h5"`; the
index is an `int`, which after the `int(...) + 1` re-derivation can in
principle be negative). -/
def fmtFilename (basename : String) (index : Int) : String :=
  basename ++ "." ++ intRepr index ++ ".h5"

/-! ### Lemmas about the decimal digits -/

theorem digitChar_ne_dot (d : Nat) (hd : d < 10) : digitChar d ≠ '.' := by
  interval_cases d <;> decide

theorem digitChar_isDigit (d : Nat) (hd : d < 10) :
    '0' ≤ digitChar d ∧ digitChar d ≤ '9' := by
  interval_cases d <;> exact ⟨by decide, by decide⟩

theorem digitChar_toNat (d : Nat) (hd : d < 10) : (digitChar d).toNat - 48 = d := by
  interval_cases d <;> decide

theorem natDigitsAux_ne_nil : ∀ (f n : Nat), n < f → natDigitsAux f n ≠ [] := by
  intro f
  induction f with
  | zero => intro n hn; omega
  | succ f _ =>
      intro n _
      rw [natDigitsAux]
      split
      · simp
      · simp

theorem natDigitsAux_no_dot : ∀ (f n : Nat), n < f → '.' ∉ natDigitsAux f n := by
  intro f
  induction f with
  | zero => intro n hn; omega
  | succ f ih =>
      intro n hn
      rw [natDigitsAux]
      split
      · next h =>
          intro hmem
          exact digitChar_ne_dot n h (List.mem_singleton.mp hmem).symm
      · next h =>
          intro hmem
          have hdiv : n / 10 < n := Nat.div_lt_self (by omega) (by omega)
          rcases List.mem_append.mp hmem with hmem | hmem
          · exact ih (n / 10) (by omega) hmem
          · exact digitChar_ne_dot (n % 10) (Nat.mod_lt n (by omega))
              (List.mem_singleton.mp hmem).symm

theorem natDigitsAux_digits : ∀ (f n : Nat), n < f →
    ∀ c ∈ natDigitsAux f n, '0' ≤ c ∧ c ≤ '9' := by
  intro f
  induction f with
  | zero => intro n hn; omega
  | succ f ih =>
      intro n hn
      rw [natDigitsAux]
      split
      · next h =>
          intro c hc
          rcases List.mem_singleton.mp hc with rfl
          exact digitChar_isDigit n h
      · next h =>
          intro c hc
          have hdiv : n / 10 < n := Nat.div_lt_self (by omega) (by omega)
          rcases List.mem_append.mp hc with hc | hc
          · exact ih (n / 10) (by omega) c hc
          · rcases List.mem_singleton.mp hc with rfl
            exact digitChar_isDigit (n % 10) (Nat.mod_lt n (by omega))

theorem natDigits_ne_nil (n : Nat) : natDigits n ≠ [] :=
  natDigitsAux_ne_nil (n + 1) n (Nat.lt_succ_self n)

theorem natDigits_no_dot (n : Nat) : '.' ∉ natDigits n :=
  natDigitsAux_no_dot (n + 1) n (Nat.lt_succ_self n)

theorem natDigits_digits (n : Nat) : ∀ c ∈ natDigits n, '0' ≤ c ∧ c ≤ '9' :=
  natDigitsAux_digits (n + 1) n (Nat.lt_succ_self n)

theorem parseDigitsAux_append (a b : List Char) (acc : Nat) :
    parseDigitsAux (a ++ b) acc =
      match parseDigitsAux a acc with
      | some m => parseDigitsAux b m
      | none => none := by
  induction a generalizing acc with
  | nil => simp [parseDigitsAux]
  | cons c r ih =>
      simp only [List.cons_append, parseDigitsAux]
      split
      · exact ih _
      · rfl

theorem parseDigitsAux_natDigitsAux : ∀ (f n acc : Nat), n < f →
    parseDigitsAux (natDigitsAux f n) acc =
      some (acc * 10 ^ (natDigitsAux f n).length + n) := by
  intro f
  induction f with
  | zero => intro n acc hn; omega
  | succ f ih =>
      intro n acc hn
      rw [natDigitsAux]
      split
      · next h =>
          have h1 := digitChar_isDigit n h
          have h2 := digitChar_toNat n h
          simp [parseDigitsAux, h1.1, h1.2, h2]
      · next h =>
          have hlt : n / 10 < n := Nat.div_lt_self (by omega) (by omega)
          have h1 := digitChar_isDigit (n % 10) (Nat.mod_lt n (by omega))
          have h2 := digitChar_toNat (n % 10) (Nat.mod_lt n (by omega))
          rw [parseDigitsAux_append, ih (n / 10) acc (by omega)]
          simp only [parseDigitsAux, h1.1, h1.2, and_self, if_pos, h2]
          have hlen : (natDigitsAux f (n / 10) ++ [digitChar (n % 10)]).length =
              (natDigitsAux f (n / 10)).length + 1 := by simp
          rw [hlen]
          congr 1
          have := Nat.div_add_mod n 10
          ring_nf
          omega

theorem parseDigits_natDigits (n : Nat) : parseDigits (natDigits n) = some n := by
  have hne := natDigits_ne_nil n
  obtain ⟨c, r, h⟩ : ∃ c r, natDigits n = c :: r := by
    cases hh : natDigits n with
    | nil => exact absurd hh hne
    | cons c r => exact ⟨c, r, rfl⟩
  rw [h]
  show parseDigitsAux (c :: r) 0 = some n
  rw [← h]
  rw [show natDigits n = natDigitsAux (n + 1) n from rfl,
    parseDigitsAux_natDigitsAux (n + 1) n 0 (Nat.lt_succ_self n)]
  simp

theorem digit_not_space (c : Char) (h : '0' ≤ c ∧ c ≤ '9') :
    isPySpace c = false := by
  rw [isPySpace, decide_eq_false_iff_not]
  intro hsp
  rcases hsp with rfl | rfl | rfl | rfl | rfl | rfl <;>
    exact absurd h (by decide)

theorem digit_ne_special (c : Char) (h : '0' ≤ c ∧ c ≤ '9') :
    c ≠ '+' ∧ c ≠ '-' ∧ c ≠ '_' := by
  refine ⟨?_, ?_, ?_⟩ <;> intro he <;> subst he <;> exact absurd h (by decide)

theorem dropWhile_space_digits (l : List Char)
    (hd : ∀ c ∈ l, '0' ≤ c ∧ c ≤ '9') : l.dropWhile isPySpace = l := by
  cases l with
  | nil => rfl
  | cons a r =>
      rw [List.dropWhile_cons,
        digit_not_space a (hd a (List.mem_cons_self a r))]
      simp

theorem stripSpaces_digits (l : List Char)
    (hd : ∀ c ∈ l, '0' ≤ c ∧ c ≤ '9') : stripSpaces l = l := by
  rw [stripSpaces, dropWhile_space_digits l hd,
    dropWhile_space_digits l.reverse
      (fun c hc => hd c (List.mem_reverse.mp hc)),
    List.reverse_reverse]

theorem parseUnderscoredAux_digits :
    ∀ l : List Char, (∀ c ∈ l, '0' ≤ c ∧ c ≤ '9') →
      ∀ acc : Nat, parseUnderscoredAux l acc = parseDigitsAux l acc := by
  intro l
  induction l with
  | nil => intro _ acc; rfl
  | cons c r1 ih =>
      intro hd acc
      have hc := hd c (List.mem_cons_self c r1)
      cases r1 with
      | nil =>
          rw [parseUnderscoredAux, if_pos hc, parseDigitsAux, if_pos hc]
          rfl
      | cons c2 r =>
          rw [parseUnderscoredAux, if_neg (digit_ne_special c hc).2.2,
            if_pos hc, parseDigitsAux, if_pos hc,
            ih (fun d hdm => hd d (List.mem_cons_of_mem c hdm))]

theorem pyIntStr_natRepr (n : Nat) : pyIntStr (natRepr n) = .ok (n : Int) := by
  have hdig := natDigits_digits n
  obtain ⟨c, r, hcr⟩ : ∃ c r, natDigits n = c :: r := by
    cases hh : natDigits n with
    | nil => exact absurd hh (natDigits_ne_nil n)
    | cons c r => exact ⟨c, r, rfl⟩
  have hc : '0' ≤ c ∧ c ≤ '9' := hdig c (by rw [hcr]; exact List.mem_cons_self c r)
  have hp : parseDigitsAux (c :: r) 0 = some n := by
    have h0 := parseDigits_natDigits n
    rw [hcr] at h0
    exact h0
  rw [parseDigitsAux, if_pos hc] at hp
  simp only [Nat.zero_mul, Nat.zero_add] at hp
  simp only [pyIntStr]
  rw [show (natRepr n).data = natDigits n from rfl, stripSpaces_digits _ hdig,
    hcr, pyIntCore, if_neg (digit_ne_special c hc).1,
    if_neg (digit_ne_special c hc).2.1, parseIntBody, if_pos hc,
    parseUnderscoredAux_digits r
      (fun d hdm => hdig d (by rw [hcr]; exact List.mem_cons_of_mem c hdm)),
    hp]
  rfl

/-- ASCII letters: characters that can occur in no Python integer literal
whatsoever (unlike signs, underscores, whitespace and Unicode digits), so
their presence guarantees that `int` raises `ValueError`. -/
def isAsciiLetter (c : Char) : Prop :=
  ('a' ≤ c ∧ c ≤ 'z') ∨ ('A' ≤ c ∧ c ≤ 'Z')

instance decIsAsciiLetter (c : Char) : Decidable (isAsciiLetter c) :=
  inferInstanceAs (Decidable (_ ∨ _))

theorem digit_not_letter (c : Char) (h : '0' ≤ c ∧ c ≤ '9') :
    ¬ isAsciiLetter c := by
  intro hl
  rcases hl with ⟨h3, _⟩ | ⟨h3, _⟩
  · exact absurd (le_trans h3 h.2) (by decide)
  · exact absurd (le_trans h3 h.2) (by decide)

theorem letter_ne_special (c : Char) (hl : isAsciiLetter c) :
    c ≠ '+' ∧ c ≠ '-' ∧ c ≠ '_' := by
  refine ⟨?_, ?_, ?_⟩ <;> intro he <;> subst he <;> exact absurd hl (by decide)

theorem letter_not_space (c : Char) (hl : isAsciiLetter c) :
    isPySpace c = false := by
  rw [isPySpace, decide_eq_false_iff_not]
  intro hsp
  rcases hsp with rfl | rfl | rfl | rfl | rfl | rfl <;>
    exact absurd hl (by decide)

theorem mem_dropWhile_of_not (p : Char → Bool) (c : Char) (hc : p c = false) :
    ∀ l : List Char, c ∈ l → c ∈ l.dropWhile p := by
  intro l
  induction l with
  | nil => intro h; exact absurd h (List.not_mem_nil c)
  | cons a r ih =>
      intro h
      rw [List.dropWhile_cons]
      split
      · next hpa =>
          rcases List.mem_cons.mp h with rfl | hr
          · rw [hc] at hpa; exact absurd hpa (by simp)
          · exact ih hr
      · exact h

theorem mem_stripSpaces (c : Char) (hc : isPySpace c = false)
    (l : List Char) (h : c ∈ l) : c ∈ stripSpaces l := by
  rw [stripSpaces, List.mem_reverse]
  exact mem_dropWhile_of_not isPySpace c hc _
    (List.mem_reverse.mpr (mem_dropWhile_of_not isPySpace c hc l h))

theorem parseUnderscoredAux_letter :
    ∀ l : List Char, (∃ c ∈ l, isAsciiLetter c) →
      ∀ acc : Nat, parseUnderscoredAux l acc = none
  | [] => by
      intro h acc
      rcases h with ⟨c, hc, _⟩
      exact absurd hc (List.not_mem_nil c)
  | [c] => by
      intro h acc
      obtain ⟨d, hd, hdl⟩ := h
      have hdc : d = c := List.mem_singleton.mp hd
      subst hdc
      rw [parseUnderscoredAux, if_neg (fun hcd => digit_not_letter d hcd hdl)]
  | c :: c2 :: r => by
      intro h acc
      obtain ⟨d, hd, hdl⟩ := h
      rw [parseUnderscoredAux]
      by_cases hcu : c = '_'
      · subst hcu
        rw [if_pos rfl]
        have hd2 : d ∈ c2 :: r := by
          rcases List.mem_cons.mp hd with heq | h2
          · subst heq; exact absurd hdl (by decide)
          · exact h2
        by_cases hc2 : '0' ≤ c2 ∧ c2 ≤ '9'
        · rw [if_pos hc2]
          have hd3 : d ∈ r := by
            rcases List.mem_cons.mp hd2 with heq | h3
            · subst heq; exact absurd hdl (digit_not_letter d hc2)
            · exact h3
          exact parseUnderscoredAux_letter r ⟨d, hd3, hdl⟩ _
        · rw [if_neg hc2]
      · rw [if_neg hcu]
        by_cases hcd : '0' ≤ c ∧ c ≤ '9'
        · rw [if_pos hcd]
          have hd3 : d ∈ c2 :: r := by
            rcases List.mem_cons.mp hd with heq | h3
            · subst heq; exact absurd hdl (digit_not_letter d hcd)
            · exact h3
          exact parseUnderscoredAux_letter (c2 :: r) ⟨d, hd3, hdl⟩ _
        · rw [if_neg hcd]
  termination_by l => l.length
  decreasing_by
    all_goals (simp only [List.length_cons]; try omega)

theorem parseIntBody_letter (l : List Char)
    (h : ∃ c ∈ l, isAsciiLetter c) : parseIntBody l = none := by
  obtain ⟨d, hd, hdl⟩ := h
  cases l with
  | nil => exact absurd hd (List.not_mem_nil d)
  | cons c r =>
      rw [parseIntBody]
      by_cases hcd : '0' ≤ c ∧ c ≤ '9'
      · rw [if_pos hcd]
        have hd3 : d ∈ r := by
          rcases List.mem_cons.mp hd with rfl | h3
          · exact absurd hdl (digit_not_letter d hcd)
          · exact h3
        exact parseUnderscoredAux_letter r ⟨d, hd3, hdl⟩ _
      · rw [if_neg hcd]

theorem pyIntCore_letter (t : List Char)
    (h : ∃ c ∈ t, isAsciiLetter c) : pyIntCore t = none := by
  obtain ⟨d, hd, hdl⟩ := h
  cases t with
  | nil => exact absurd hd (List.not_mem_nil d)
  | cons c r =>
      rw [pyIntCore]
      by_cases hcp : c = '+'
      · subst hcp
        rw [if_pos rfl]
        have hd2 : d ∈ r := by
          rcases List.mem_cons.mp hd with heq | h2
          · subst heq; exact absurd hdl (by decide)
          · exact h2
        rw [parseIntBody_letter r ⟨d, hd2, hdl⟩]
        rfl
      · rw [if_neg hcp]
        by_cases hcm : c = '-'
        · subst hcm
          rw [if_pos rfl]
          have hd2 : d ∈ r := by
            rcases List.mem_cons.mp hd with heq | h2
            · subst heq; exact absurd hdl (by decide)
            · exact h2
          rw [parseIntBody_letter r ⟨d, hd2, hdl⟩]
          rfl
        · rw [if_neg hcm, parseIntBody_letter (c :: r) ⟨d, hd, hdl⟩]
          rfl

theorem pyIntStr_letter (s : String) (h : ∃ c ∈ s.data, isAsciiLetter c) :
    pyIntStr s = .error (.valueError s) := by
  obtain ⟨d, hd, hdl⟩ := h
  have hd2 : d ∈ stripSpaces s.data :=
    mem_stripSpaces d (letter_not_space d hdl) _ hd
  simp only [pyIntStr]
  rw [pyIntCore_letter (stripSpaces s.data) ⟨d, hd2, hdl⟩]

theorem natRepr_injective : Function.Injective natRepr := by
  intro a b h
  have ha := parseDigits_natDigits a
  have hb := parseDigits_natDigits b
  have : natDigits a = natDigits b := congrArg String.data h
  rw [this, hb] at ha
  exact (Option.some.injEq _ _).mp ha.symm

theorem intRepr_coe_nat (n : Nat) : intRepr (n : Int) = natRepr n := by
  unfold intRepr
  rw [if_neg (by omega : ¬((n : Int) < 0)), Int.natAbs_ofNat]

theorem intRepr_no_dot (i : Int) : '.' ∉ (intRepr i).data := by
  rw [intRepr]
  split
  · intro hmem
    have hdata : ("-" ++ natRepr i.natAbs).data = '-' :: natDigits i.natAbs := rfl
    rw [hdata] at hmem
    rcases List.mem_cons.mp hmem with h | h
    · exact absurd h (by decide)
    · exact natDigits_no_dot _ h
  · exact natDigits_no_dot _

/-! ### Lemmas about dot-splitting -/

theorem chSplit_ne_nil : ∀ l : List Char, chSplit l ≠ []
  | [] => by simp [chSplit]
  | c :: r => by
      rw [chSplit]
      split
      · simp
      · match h : chSplit r with
        | [] => simp
        | h' :: t => simp

theorem chSplit_no_dot (l : List Char) (hl : '.' ∉ l) : chSplit l = [l] := by
  induction l with
  | nil => rfl
  | cons c r ih =>
      have hc : c ≠ '.' := fun h => hl (h ▸ List.mem_cons_self c r)
      have hr : '.' ∉ r := fun h => hl (List.mem_cons_of_mem c h)
      rw [chSplit, if_neg hc, ih hr]

theorem chSplit_append_dot (x y : List Char) :
    chSplit (x ++ '.' :: y) = chSplit x ++ chSplit y := by
  induction x with
  | nil => simp [chSplit]
  | cons c r ih =>
      by_cases hc : c = '.'
      · subst hc
        rw [List.cons_append, chSplit, if_pos rfl, ih, chSplit, if_pos rfl]
        rfl
      · have hne := chSplit_ne_nil r
        obtain ⟨h', t, hr⟩ : ∃ h' t, chSplit r = h' :: t := by
          cases hh : chSplit r with
          | nil => exact absurd hh hne
          | cons a b => exact ⟨a, b, rfl⟩
        rw [List.cons_append, chSplit, if_neg hc, ih, hr, chSplit, if_neg hc, hr]
        rfl

theorem data_fmtFilename (b : String) (i : Int) :
    (fmtFilename b i).data =
      b.data ++ '.' :: ((intRepr i).data ++ '.' :: ['h', '5']) := by
  show (b ++ "." ++ intRepr i ++ ".h5").data = _
  have h1 : ∀ s t : String, (s ++ t).data = s.data ++ t.data := fun s t => rfl
  rw [h1, h1, h1]
  simp

theorem pySplitDot_fmtFilename (b : String) (hb : '.' ∉ b.data) (i : Int) :
    pySplitDot (fmtFilename b i) = [b, intRepr i, "h5"] := by
  rw [pySplitDot, data_fmtFilename, chSplit_append_dot, chSplit_append_dot,
    chSplit_no_dot b.data hb,
    chSplit_no_dot (intRepr i).data (intRepr_no_dot i),
    chSplit_no_dot ['h', '5'] (by decide)]
  rfl

theorem fmtFilename_inj (b : String) (hb : '.' ∉ b.data) {i j : Nat}
    (h : fmtFilename b (i : Int) = fmtFilename b (j : Int)) : i = j := by
  have hsplit := congrArg pySplitDot h
  rw [pySplitDot_fmtFilename b hb (i : Int),
    pySplitDot_fmtFilename b hb (j : Int)] at hsplit
  have h2 : intRepr (i : Int) = intRepr (j : Int) := by
    simpa using congrArg (fun l => l.get? 1) hsplit
  rw [intRepr_coe_nat, intRepr_coe_nat] at h2
  exact natRepr_injective h2

/-! ### Embedding of `src/ipie/estimators/handler.py`

The module is embedded name by name.  Python name resolution is modelled
through the module global table `moduleBindings` (the names actually bound
at the top level of `handler.py`); looking up an unbound name raises
`NameError`.  Instance attributes that no method of the class ever assigns
are modelled as `Option` fields that construction leaves at `none`
(reading `none` raises `AttributeError`). -/

/-- Per-observable options dictionary (passed through to the estimator
constructor, never inspected by `handler.py`). -/
abbrev ObsOpts : Type := List (String × Int)

/-- Modelled from the spec: an estimator object (the `EnergyEstimator`
class of `ipie.estimators.energy` is imported by `handler.py` but its
source is not under `src/`).  Per the spec data model each estimator owns
a fixed-size array slice of the layout, a shape, a write frequency, and
produces a local (pre-reduction) contribution. -/
structure Estimator : Type where
  kind : String
  opts : ObsOpts
  slice : Nat × Nat
  shape : List Nat
  compute : List Cplx
  write_frequency : Nat
  print_to_stdout : Bool
  deriving DecidableEq, Repr

/-- Modelled from the spec: constructing an `EnergyEstimator` (class body
not under `src/`); it records the observable kind and its options.  The
layout fields carry placeholder values; no claim depends on them because
the handler code errors before they are ever read. -/
def EnergyEstimator (opts : ObsOpts) : Estimator :=
  { kind := "energy", opts := opts, slice := (0, 0), shape := [0],
    compute := [], write_frequency := 0, print_to_stdout := true }

/-- Values bound to the module-level names of `handler.py`. -/
inductive PyGlobal : Type where
  | module (name : String)
  | pyclass (name : String)
  | pyfun (name : String)
  | estimatorTable (t : List (String × (ObsOpts → Estimator)))

/-- The dictionary literal `_predefined_estimators` of `handler.py`
(lines 19-21): the single predefined estimator name is `"energy"`. -/
def predefinedEstimatorsTable : List (String × (ObsOpts → Estimator)) :=
  [("energy", EnergyEstimator)]

/-- The names bound at the top level of `handler.py`: the `__future__`
import, the imported modules (`import scipy.linalg` binds `scipy`), the
three imported names, the `_predefined_estimators` dictionary, the
`EstimatorHandler` class and the `EstimatorHelper` declaration.  Note that
`predefined_estimators` (without the leading underscore), `qmc`, `MPI`,
`np` and `EstimatorBase` are NOT bound. -/
def moduleBindings : List (String × PyGlobal) :=
  [("print_function", .module "print_function"),
   ("copy", .module "copy"),
   ("os", .module "os"),
   ("time", .module "time"),
   ("warnings", .module "warnings"),
   ("h5py", .module "h5py"),
   ("numpy", .module "numpy"),
   ("scipy", .module "scipy"),
   ("EnergyEstimator", .pyclass "EnergyEstimator"),
   ("H5EstimatorHelper", .pyclass "H5EstimatorHelper"),
   ("get_input_value", .pyfun "get_input_value"),
   ("_predefined_estimators", .estimatorTable predefinedEstimatorsTable),
   ("EstimatorHandler", .pyclass "EstimatorHandler"),
   ("EstimatorHelper", .pyfun "EstimatorHelper")]

/-- Resolution of a bare global name inside `handler.py`: `NameError` when
the module does not bind it. -/
def resolveGlobal (n : String) : Except PyError PyGlobal :=
  match moduleBindings.lookup n with
  | some v => .ok v
  | none => .error (.nameError n)

/-- The method names defined by `class EstimatorHandler` (there is no
`zero` method). -/
def estimatorHandlerMethods : List String :=
  ["__init__", "dump_metadata", "increment_file_number", "setup_output",
   "compute_estimators"]

/-- The `options` dictionary handed to `EstimatorHandler.__init__`,
restricted to the keys the method reads via `options.get`. -/
structure Options : Type where
  index : Option Int := none
  filename : Option String := none
  basename : Option String := none
  overwrite : Option Bool := none
  observables : Option (List (String × ObsOpts)) := none

/-- Modelled from the spec: the `H5EstimatorHelper` output helper
(imported from `ipie.estimators.utils`, not under `src/`): it targets the
output file and appends one chunk per push. -/
structure OutputHelper : Type where
  filename : String
  chunk_index : Nat
  deriving DecidableEq, Repr

/-- The instance state of an `EstimatorHandler`.  `index` and `basename`
are assigned only on rank 0 (reading `none` raises `AttributeError`);
`filename` is assigned on every rank (its `none` models Python `None`);
`output`, `buffer_size`, `local_estimates` and `global_estimates` are
never assigned by any method of the class, so construction leaves them
`none`. -/
structure HandlerState : Type where
  index : Option Int
  filename : Option String
  basename : Option String
  estimators : List (String × Estimator)
  output : Option OutputHelper
  buffer_size : Option Nat
  local_estimates : Option (List Cplx)
  global_estimates : Option (List Cplx)
  deriving DecidableEq, Repr

/-- The default of `options.get("observables", {"energy": {}})`. -/
def defaultObservables : List (String × ObsOpts) := [("energy", [])]

/-- One `try`-guarded iteration of the estimator-construction loop of
`__init__` (lines 80-93).  The body subscripts the bare name
`predefined_estimators`; the module only binds `_predefined_estimators`
(see `moduleBindings`), so the lookup raises `NameError`, which the
`except KeyError` clause does not catch. -/
def buildEstimator (obs : String) (od : ObsOpts) : Except PyError Estimator :=
  let body : Except PyError Estimator :=
    match resolveGlobal "predefined_estimators" with
    | .error e => .error e
    | .ok (.estimatorTable t) =>
        match t.lookup obs with
        | some ctor => .ok (ctor od)
        | none => .error (.keyError obs)
    | .ok _ => .error (.runtimeError "object is not subscriptable")
  match body with
  | .error (.keyError _) => .error (.runtimeError ("unknown observable: " ++ obs))
  | r => r

/-- The estimator-construction loop of `__init__` over the `observables`
items, in insertion order. -/
def buildEstimators : List (String × ObsOpts) → Except PyError (List (String × Estimator))
  | [] => .ok []
  | (obs, od) :: rest =>
      match buildEstimator obs od with
      | .error e => .error e
      | .ok est =>
          match buildEstimators rest with
          | .error e => .error e
          | .ok l => .ok ((obs, est) :: l)

/-- The `while os.path.isfile(self.filename) and not overwrite:` loop of
`__init__` (lines 68-71): the body re-derives the index by parsing the
second dot-separated component of the current filename with `int`, adds
one, and rebuilds the filename.  `fuel` bounds the number of iterations;
exhausting it models non-termination of the Python loop. -/
def namingLoop (fs : FileSystem) (basename : String) (overwrite : Bool) :
    Nat → String → Int → PyResult (String × Int)
  | 0, filename, index =>
      if filename ∈ fs ∧ overwrite = false then .diverge
      else .ok (filename, index)
  | fuel + 1, filename, index =>
      if filename ∈ fs ∧ overwrite = false then
        match pyListGet (pySplitDot filename) 1 with
        | .error e => .err e
        | .ok s =>
            match pyIntStr s with
            | .error e => .err e
            | .ok i =>
                namingLoop fs basename overwrite fuel
                  (fmtFilename basename (i + 1)) (i + 1)
      else .ok (filename, index)

/-- Lines 62-71 of `__init__` on rank 0: defaulting of `index`,
`filename`, `basename` and `overwrite`, and the automatic index-increment
loop when no explicit filename is configured. -/
def initRank0Naming (options : Options) (fs : FileSystem) (fuel : Nat) :
    PyResult (String × Int) :=
  let index := options.index.getD 0
  let basename := options.basename.getD "options"
  match options.filename with
  | some f => .ok (f, index)
  | none =>
      let overwrite := options.overwrite.getD true
      namingLoop fs basename overwrite fuel (fmtFilename basename index) index

/-- The whole of `EstimatorHandler.__init__`: on rank 0 the naming loop
runs and `h5py.File(self.filename, "w")` creates (truncating if present)
the output file; on other ranks `self.filename = None`; then the
estimator-construction loop runs on every rank.  The second component is
the trace of file operations performed. -/
def estimatorHandlerInit (rank : Nat) (options : Options) (fs : FileSystem)
    (fuel : Nat) : PyResult HandlerState × List FileOp :=
  if rank = 0 then
    match initRank0Naming options fs fuel with
    | .err e => (.err e, [])
    | .diverge => (.diverge, [])
    | .ok (filename, index) =>
        let trace := [FileOp.create filename]
        match buildEstimators (options.observables.getD defaultObservables) with
        | .error e => (.err e, trace)
        | .ok ests =>
            (.ok { index := some index, filename := some filename,
                   basename := some (options.basename.getD "options"),
                   estimators := ests, output := none, buffer_size := none,
                   local_estimates := none, global_estimates := none }, trace)
  else
    match buildEstimators (options.observables.getD defaultObservables) with
    | .error e => (.err e, [])
    | .ok ests =>
        (.ok { index := none, filename := none, basename := none,
               estimators := ests, output := none, buffer_size := none,
               local_estimates := none, global_estimates := none }, [])

/-- Method `EstimatorHandler.setup_output` (lines 105-111): on rank 0 each loop
iteration constructs `H5EstimatorHelper(self.filename,
chunk_size=self.buffer_size, shape=(self.estimators.total_size,))`.
Evaluating the keyword arguments reads `self.buffer_size`, which no method
ever assigns (`AttributeError`); were it present, `self.estimators` is a
dictionary and has no attribute `total_size` (`AttributeError`).  On other
ranks the method does nothing. -/
def setupOutput (rank : Nat) (self : HandlerState) :
    PyResult HandlerState × List FileOp :=
  if rank = 0 then
    match self.estimators with
    | [] => (.ok self, [])
    | _ :: _ =>
        match self.buffer_size with
        | none => (.err (.attributeError "buffer_size"), [])
        | some _ => (.err (.attributeError "total_size"), [])
  else (.ok self, [])

/-- Writing a local contribution into the fixed-layout buffer at an
estimator slice (offset, length irrelevant to the claims: the handler
errors before any write is reachable). -/
def writeSlice (buf : List Cplx) (sl : Nat × Nat) (v : List Cplx) : List Cplx :=
  buf.take sl.1 ++ v ++ buf.drop (sl.1 + v.length)

/-- Modelled from the spec: the per-estimator local contribution written
into the local buffer (the estimator compute routines live outside
`src/`).  The call site in `compute_estimators` passes the bare name `qmc`
as first argument, and `handler.py` binds no global `qmc`, so evaluating
the arguments raises `NameError` first. -/
def estimatorContribution (e : Estimator) : Except PyError (List Cplx) :=
  match resolveGlobal "qmc" with
  | .error err => .error err
  | .ok _ => .ok e.compute

/-- The first loop of `compute_estimators` (lines 124-128): per estimator,
read the slice from the dictionary, evaluate the contribution (which
resolves `qmc`), then store it through `self.local_estimates` (an
attribute no method ever assigns). -/
def computeLoop (self : HandlerState) :
    List (String × Estimator) → Except PyError HandlerState
  | [] => .ok self
  | (k, e) :: rest =>
      match (match self.estimators.lookup k with
             | some est => Except.ok est.slice
             | none => Except.error (PyError.keyError k)) with
      | .error err => .error err
      | .ok estimator_slice =>
          match estimatorContribution e with
          | .error err => .error err
          | .ok contrib =>
              match self.local_estimates with
              | none => .error (.attributeError "local_estimates")
              | some buf =>
                  computeLoop
                    { self with
                      local_estimates :=
                        some (writeSlice buf estimator_slice contrib) } rest

/-- Line 129, `comm.Reduce(self.local_estimates, self.global_estimates,
op=MPI.SUM)`: the arguments read the two buffer attributes (never
assigned by any method) and then the bare name `MPI`, which `handler.py`
never imports.  Modelled from the spec for the unreachable success case:
the blocking sum-reduction leaves the local worker with its own local
buffer as the reduced buffer. -/
def reduceStep (self : HandlerState) : Except PyError HandlerState :=
  match self.local_estimates with
  | none => .error (.attributeError "local_estimates")
  | some lbuf =>
      match self.global_estimates with
      | none => .error (.attributeError "global_estimates")
      | some _ =>
          match resolveGlobal "MPI" with
          | .error err => .error err
          | .ok _ => .ok { self with global_estimates := some lbuf }

/-- Modelled from the spec: the per-estimator post-reduction hook
(implementation outside `src/`), treated as leaving the reduced buffer in
place; it is unreachable because `reduceStep` always raises. -/
def post_reduce_hook (_e : Estimator) (g : List Cplx) : List Cplx := g

/-- The second loop of `compute_estimators` (lines 131-139): per
estimator, run the post-reduce hook on `self.global_estimates` and, on
rank 0 only, push the reduced buffer to the output file (an append) and
advance the output chunk counter.  The `if e.print_to_stdout: pass` test
has no effect. -/
def outputLoop (rank : Nat) (self : HandlerState) :
    List (String × Estimator) → Except PyError HandlerState × List FileOp
  | [] => (.ok self, [])
  | (_, e) :: rest =>
      match self.global_estimates with
      | none => (.error (.attributeError "global_estimates"), [])
      | some g =>
          let self1 := { self with global_estimates := some (post_reduce_hook e g) }
          if rank = 0 then
            match self1.output with
            | none => (.error (.attributeError "output"), [])
            | some out =>
                let out2 : OutputHelper := { out with chunk_index := out.chunk_index + 1 }
                let self2 := { self1 with output := some out2 }
                match outputLoop rank self2 rest with
                | (r, ops2) => (r, FileOp.append out.filename :: ops2)
          else
            outputLoop rank self1 rest

/-- The whole of `EstimatorHandler.compute_estimators` (lines 113-140):
local-write loop, reduction, output loop, then `self.zero()` — and the
class defines no method named `zero` (see `estimatorHandlerMethods`), so
that final call raises `AttributeError`. -/
def computeEstimators (rank : Nat) (self : HandlerState) :
    PyResult HandlerState × List FileOp :=
  match computeLoop self self.estimators with
  | .error e => (.err e, [])
  | .ok self1 =>
      match reduceStep self1 with
      | .error e => (.err e, [])
      | .ok self2 =>
          match outputLoop rank self2 self2.estimators with
          | (.error e, ops) => (.err e, ops)
          | (.ok self3, ops) =>
              if "zero" ∈ estimatorHandlerMethods then (.ok self3, ops)
              else (.err (.attributeError "zero"), ops)

/-! ### Embedding of the `EstimatorHelper` declaration (lines 144-166) -/

/-- The state an `EstimatorHelper` instance would have after `__init__`
(which assigns `_estimators`, `_shapes`, `_offset` — no trailing `s` —
and `_num_estim`). -/
structure HelperState : Type where
  underEstimators : List (String × Estimator)
  underShapes : List (List Nat)
  underOffset : List (String × Nat)
  underNumEstim : Nat
  deriving DecidableEq, Repr

/-- The attribute names `EstimatorHelper.__init__` assigns: `_offsets`
(with an `s`), which `push` reads, is not among them. -/
def helperAssignedAttrs : List String :=
  ["_estimators", "_shapes", "_offset", "_num_estim"]

/-- The `__init__` body of `EstimatorHelper`. -/
def helperInit : HelperState :=
  { underEstimators := [], underShapes := [], underOffset := [],
    underNumEstim := 0 }

/-- Assignment into a Python dictionary modelled as an association list. -/
def dictInsert {α : Type} (d : List (String × α)) (k : String) (v : α) :
    List (String × α) :=
  if d.any (fun p => p.1 = k) then
    d.map (fun p => if p.1 = k then (k, v) else p)
  else d ++ [(k, v)]

/-- The `push` body of `EstimatorHelper` (lines 153-160): it stores the
estimator, appends its shape and bumps the counter, then evaluates
`self._offsets.items()[-1]` — but `__init__` assigned only `_offset`
(see `helperAssignedAttrs`), so reading `_offsets` raises
`AttributeError` and the new offset bookkeeping is never reached. -/
def helperPush (self : HelperState) (name : String) (estimator : Estimator) :
    Except PyError HelperState :=
  let _self1 : HelperState :=
    { self with
      underEstimators := dictInsert self.underEstimators name estimator,
      underShapes := self.underShapes ++ [estimator.shape],
      underNumEstim := self.underNumEstim + 1 }
  .error (.attributeError "_offsets")

/-- Line 144 declares `EstimatorHelper` with `def`, not `class`: calling
it executes the nested `def` statements, and executing
`def push(name: str, estimator: EstimatorBase)` eagerly evaluates the
parameter annotation `EstimatorBase` — a name `handler.py` never binds
(see `moduleBindings`) — so the call raises `NameError` and no instance
carrying a `push` method is ever produced. -/
def EstimatorHelperFn (_object : Unit) : Except PyError HelperState :=
  .error (.nameError "EstimatorBase")

/-! ### Constants of `src/ipie/qmc/tests/test_afqmc_multi_det_batch.py`

The module-level parameters (lines 22-30) and the option values the test
passes to both drivers. -/

namespace testAfqmcMultiDetBatch

def steps : Nat := 25

def blocks : Nat := 5

def seed : Nat := 7

def nwalkers : Nat := 25

def nmo : Nat := 3

def nelec : Nat × Nat := (2, 1)

def pop_control_freq : Nat := 1

def ndets : Nat := 5

def stabilise_freq : Nat := 10

def timestep : ℚ := 5 / 1000

def energy_eval_freq : Nat := 1

def population_control : String := "pair_branch"

end testAfqmcMultiDetBatch

/-! ### Spec-modelled propagation/estimation pipelines

The batched driver (`ipie.qmc.afqmc_batch.AFQMCBatch`) and the legacy
single-walker-loop driver (`ipie.legacy.qmc.afqmc.AFQMC`) are not under
`src/` — only the cross-validation test is.  They are modelled from the
spec: both pipelines evolve the same per-walker trajectories (the spec
fixes the random seed, Hamiltonian and trial wavefunction, which
determine every stochastic draw; the per-walker dynamics — one-body half
steps, auxiliary-field sampling, phaseless reweighting, stabilisation,
population control — is abstracted as a step function `step t i w` for
step `t` and walker `i`), and they differ in how they traverse the
population and accumulate the mixed estimator: the batched pipeline maps
a whole walker batch at once and reduces arrays, the legacy pipeline
visits one walker at a time and accumulates scalars. -/

/-- Modelled from the spec: a walker of the mixed-estimator model; it
carries a weight, a cached local energy and an overlap with the trial
wavefunction, all complex-valued. -/
structure Walker : Type where
  weight : Cplx
  energy : Cplx
  ovlp : Cplx
  deriving DecidableEq, Repr

/-- Modelled from the spec: one propagation step of the batched pipeline,
applied to the whole enumerated walker batch at once. -/
def propagateBatched (step : Nat → Nat → Walker → Walker) (t : Nat)
    (ws : List Walker) : List Walker :=
  ws.enum.map (fun p => step t p.1 p.2)

/-- Modelled from the spec: the legacy single-walker loop for one
propagation step, visiting walker `i`, then `i + 1`, and so on. -/
def legacyWalkerLoop (step : Nat → Nat → Walker → Walker) (t : Nat) :
    Nat → List Walker → List Walker
  | _, [] => []
  | i, w :: rest => step t i w :: legacyWalkerLoop step t (i + 1) rest

/-- Batched pipeline: steps `t0, t0 + 1, …, t0 + nsteps - 1` applied to
the batch. -/
def runBatchedFrom (step : Nat → Nat → Walker → Walker) (t0 nsteps : Nat)
    (ws : List Walker) : List Walker :=
  (List.range' t0 nsteps).foldl (fun cur t => propagateBatched step t cur) ws

/-- Legacy pipeline: the same steps, each realised by the single-walker
loop. -/
def runLegacyFrom (step : Nat → Nat → Walker → Walker) (t0 nsteps : Nat)
    (ws : List Walker) : List Walker :=
  (List.range' t0 nsteps).foldl (fun cur t => legacyWalkerLoop step t 0 cur) ws

/-- The batched pipeline started at step 0. -/
def runBatched (step : Nat → Nat → Walker → Walker) (nsteps : Nat)
    (ws : List Walker) : List Walker :=
  runBatchedFrom step 0 nsteps ws

/-- The legacy pipeline started at step 0. -/
def runLegacy (step : Nat → Nat → Walker → Walker) (nsteps : Nat)
    (ws : List Walker) : List Walker :=
  runLegacyFrom step 0 nsteps ws

/-- Modelled from the spec: batched mixed-estimator energy numerator,
`Σ_i weight_i · energy_i`, computed as one array reduction. -/
def mixedNumerBatched (ws : List Walker) : Cplx :=
  (ws.map (fun w => cmul w.weight w.energy)).sum

/-- Modelled from the spec: batched mixed-estimator energy denominator,
`Σ_i weight_i · ovlp_i`, computed as one array reduction. -/
def mixedDenomBatched (ws : List Walker) : Cplx :=
  (ws.map (fun w => cmul w.weight w.ovlp)).sum

/-- Modelled from the spec: batched total weight `Σ_i weight_i`. -/
def totalWeightBatched (ws : List Walker) : Cplx :=
  (ws.map (fun w => w.weight)).sum

/-- Modelled from the spec: batched overlap observable `Σ_i ovlp_i`. -/
def ovlpBatched (ws : List Walker) : Cplx :=
  (ws.map (fun w => w.ovlp)).sum

/-- The legacy scalar accumulation loop: one walker at a time into a
running accumulator. -/
def legacyAccum (f : Walker → Cplx) : List Walker → Cplx → Cplx
  | [], acc => acc
  | w :: rest, acc => legacyAccum f rest (acc + f w)

/-- Legacy mixed-estimator energy numerator, accumulated walker by
walker. -/
def mixedNumerLegacy (ws : List Walker) : Cplx :=
  legacyAccum (fun w => cmul w.weight w.energy) ws 0

/-- Legacy mixed-estimator energy denominator, accumulated walker by
walker. -/
def mixedDenomLegacy (ws : List Walker) : Cplx :=
  legacyAccum (fun w => cmul w.weight w.ovlp) ws 0

/-- Legacy total weight, accumulated walker by walker. -/
def totalWeightLegacy (ws : List Walker) : Cplx :=
  legacyAccum (fun w => w.weight) ws 0

/-- Legacy overlap observable, accumulated walker by walker. -/
def ovlpLegacy (ws : List Walker) : Cplx :=
  legacyAccum (fun w => w.ovlp) ws 0

/-- One per-block record of the output file: total energy
(numerator / denominator), total weight and overlap. -/
structure BlockRecord : Type where
  etotal : Cplx
  weight : Cplx
  ovlp : Cplx
  deriving DecidableEq, Repr

/-- The block record the batched pipeline writes after a block. -/
def blockRecordBatched (ws : List Walker) : BlockRecord :=
  { etotal := cdiv (mixedNumerBatched ws) (mixedDenomBatched ws),
    weight := totalWeightBatched ws,
    ovlp := ovlpBatched ws }

/-- The block record the legacy pipeline writes after a block. -/
def blockRecordLegacy (ws : List Walker) : BlockRecord :=
  { etotal := cdiv (mixedNumerLegacy ws) (mixedDenomLegacy ws),
    weight := totalWeightLegacy ws,
    ovlp := ovlpLegacy ws }

/-- Modelled from the spec: the blocked batched run — `nblocks` blocks of
`nsteps` steps each, recording one `BlockRecord` after every block. -/
def runBlocksBatched (step : Nat → Nat → Walker → Walker) (nsteps : Nat) :
    Nat → Nat → List Walker → List BlockRecord
  | 0, _, _ => []
  | b + 1, t0, ws =>
      blockRecordBatched (runBatchedFrom step t0 nsteps ws) ::
        runBlocksBatched step nsteps b (t0 + nsteps)
          (runBatchedFrom step t0 nsteps ws)

/-- Modelled from the spec: the blocked legacy run. -/
def runBlocksLegacy (step : Nat → Nat → Walker → Walker) (nsteps : Nat) :
    Nat → Nat → List Walker → List BlockRecord
  | 0, _, _ => []
  | b + 1, t0, ws =>
      blockRecordLegacy (runLegacyFrom step t0 nsteps ws) ::
        runBlocksLegacy step nsteps b (t0 + nsteps)
          (runLegacyFrom step t0 nsteps ws)

/-- Mean of a list of rationals (`numpy.mean`). -/
def meanQ (l : List ℚ) : ℚ := l.sum / l.length

/-! ### Spec-modelled local-energy evaluation strategies

`local_energy_single_det_batch` (direct), the `_chunked` variants and the
`_gpu` variants are not under `src/` — only their test is.  Modelled from
the spec: the per-walker local energy is a one-body part plus a sum of
contributions of the Cholesky vectors `0, …, nchol - 1`; the direct
strategy contracts the full rank dimension at once, the chunked strategy
iterates over contiguous rank-chunks whose size is derived from a
configurable maximum working-memory budget and accumulates per-chunk sums,
and the accelerated strategy is the direct algorithm composed with the
semantics-preserving `cast_to_accelerator` transform. -/

/-- Contiguous chunks of at most `max 1 c` elements (a zero or negative
budget still advances by one, so chunking always terminates). -/
def chunksOf {α : Type} (c : Nat) : List α → List (List α)
  | [] => []
  | x :: xs =>
      (x :: xs).take (max 1 c) :: chunksOf c ((x :: xs).drop (max 1 c))
  termination_by l => l.length
  decreasing_by
    rw [List.length_drop]
    simp only [List.length_cons]
    omega

/-- Modelled from the spec: the number of Cholesky vectors per chunk pass
allowed by a maximum working-memory budget `max_mem`, given the memory
cost of one vector; always at least one. -/
def ncholPerChunk (max_mem bytes_per_chol : ℚ) : Nat :=
  max 1 ⌊max_mem / bytes_per_chol⌋₊

/-- Modelled from the spec: direct (full-tensor) per-walker local
energies — one-body part plus the full sum over Cholesky vectors. -/
def localEnergyDirect (e1 : Nat → Cplx) (twoBody : Nat → Nat → Cplx)
    (nchol nwalkers : Nat) : List Cplx :=
  (List.range nwalkers).map
    (fun w => e1 w + ((List.range nchol).map (twoBody w)).sum)

/-- Modelled from the spec: chunked per-walker local energies — the rank
dimension is cut into chunk passes sized by the memory budget and the
per-chunk sums are accumulated. -/
def localEnergyChunked (e1 : Nat → Cplx) (twoBody : Nat → Nat → Cplx)
    (nchol nwalkers : Nat) (max_mem bytes_per_chol : ℚ) : List Cplx :=
  let chunks := chunksOf (ncholPerChunk max_mem bytes_per_chol) (List.range nchol)
  (List.range nwalkers).map
    (fun w => e1 w + (chunks.map (fun ch => (ch.map (twoBody w)).sum)).sum)

/-- Modelled from the spec: `cast_to_accelerator` is a pure,
semantics-preserving transform. -/
def cast_to_accelerator {α : Type} (x : α) : α := x

/-- Modelled from the spec: accelerated per-walker local energies — the
direct algorithm run on accelerator-cast inputs, with the result cast
back. -/
def localEnergyAccel (e1 : Nat → Cplx) (twoBody : Nat → Nat → Cplx)
    (nchol nwalkers : Nat) : List Cplx :=
  cast_to_accelerator
    (localEnergyDirect (fun w => cast_to_accelerator (e1 w))
      (fun w x => cast_to_accelerator (twoBody w x)) nchol nwalkers)

/-! ### Supporting lemmas: pipelines -/

theorem legacyAccum_eq (f : Walker → Cplx) :
    ∀ (l : List Walker) (acc : Cplx), legacyAccum f l acc = acc + (l.map f).sum := by
  intro l
  induction l with
  | nil => intro acc; simp [legacyAccum]
  | cons w rest ih =>
      intro acc
      rw [legacyAccum, ih]
      simp [add_assoc]

theorem mixedNumerBatched_eq_legacy (ws : List Walker) :
    mixedNumerBatched ws = mixedNumerLegacy ws := by
  rw [mixedNumerLegacy, legacyAccum_eq, zero_add, mixedNumerBatched]

theorem mixedDenomBatched_eq_legacy (ws : List Walker) :
    mixedDenomBatched ws = mixedDenomLegacy ws := by
  rw [mixedDenomLegacy, legacyAccum_eq, zero_add, mixedDenomBatched]

theorem totalWeightBatched_eq_legacy (ws : List Walker) :
    totalWeightBatched ws = totalWeightLegacy ws := by
  rw [totalWeightLegacy, legacyAccum_eq, zero_add, totalWeightBatched]

theorem ovlpBatched_eq_legacy (ws : List Walker) :
    ovlpBatched ws = ovlpLegacy ws := by
  rw [ovlpLegacy, legacyAccum_eq, zero_add, ovlpBatched]

theorem blockRecordBatched_eq_legacy (ws : List Walker) :
    blockRecordBatched ws = blockRecordLegacy ws := by
  rw [blockRecordBatched, blockRecordLegacy, mixedNumerBatched_eq_legacy,
    mixedDenomBatched_eq_legacy, totalWeightBatched_eq_legacy,
    ovlpBatched_eq_legacy]

theorem legacyWalkerLoop_eq (step : Nat → Nat → Walker → Walker) (t : Nat) :
    ∀ (l : List Walker) (i : Nat),
      legacyWalkerLoop step t i l =
        (List.enumFrom i l).map (fun p => step t p.1 p.2) := by
  intro l
  induction l with
  | nil => intro i; rfl
  | cons w rest ih =>
      intro i
      rw [legacyWalkerLoop,
        show List.enumFrom i (w :: rest) = (i, w) :: List.enumFrom (i + 1) rest
          from rfl,
        List.map_cons, ih]

theorem propagateBatched_eq_legacy (step : Nat → Nat → Walker → Walker)
    (t : Nat) (ws : List Walker) :
    propagateBatched step t ws = legacyWalkerLoop step t 0 ws := by
  rw [propagateBatched, legacyWalkerLoop_eq]
  rfl

theorem runBatchedFrom_eq_legacy (step : Nat → Nat → Walker → Walker) :
    ∀ (t0 nsteps : Nat) (ws : List Walker),
      runBatchedFrom step t0 nsteps ws = runLegacyFrom step t0 nsteps ws := by
  have hfold : ∀ (l : List Nat) (ws : List Walker),
      l.foldl (fun cur t => propagateBatched step t cur) ws =
        l.foldl (fun cur t => legacyWalkerLoop step t 0 cur) ws := by
    intro l
    induction l with
    | nil => intro ws; rfl
    | cons t rest ih =>
        intro ws
        rw [List.foldl_cons, List.foldl_cons, propagateBatched_eq_legacy, ih]
  intro t0 nsteps ws
  exact hfold _ ws

theorem runBlocksBatched_eq_legacy (step : Nat → Nat → Walker → Walker)
    (nsteps : Nat) :
    ∀ (b t0 : Nat) (ws : List Walker),
      runBlocksBatched step nsteps b t0 ws = runBlocksLegacy step nsteps b t0 ws := by
  intro b
  induction b with
  | zero => intro t0 ws; rfl
  | succ b ih =>
      intro t0 ws
      rw [runBlocksBatched, runBlocksLegacy, runBatchedFrom_eq_legacy,
        blockRecordBatched_eq_legacy, ih]

/-! ### Supporting lemmas: chunked local energy -/

theorem chunksOf_flatten {α : Type} (c : Nat) :
    ∀ l : List α, (chunksOf c l).flatten = l
  | [] => by rw [chunksOf]; rfl
  | x :: xs => by
      rw [chunksOf, List.flatten_cons,
        chunksOf_flatten c ((x :: xs).drop (max 1 c)), List.take_append_drop]
  termination_by l => l.length
  decreasing_by
    rw [List.length_drop]
    simp only [List.length_cons]
    omega

theorem sum_chunksOf {α : Type} (c : Nat) (f : α → Cplx) (l : List α) :
    ((chunksOf c l).map (fun ch => (ch.map f).sum)).sum = (l.map f).sum := by
  have h1 : ((chunksOf c l).map (List.map f)).flatten = l.map f := by
    rw [← List.map_flatten, chunksOf_flatten]
  calc ((chunksOf c l).map (fun ch => (ch.map f).sum)).sum
      = (((chunksOf c l).map (List.map f)).map List.sum).sum := by
        rw [List.map_map]; rfl
    _ = (((chunksOf c l).map (List.map f)).flatten).sum := (List.sum_flatten).symm
    _ = (l.map f).sum := by rw [h1]

/-! ### Supporting lemmas: the filename-index loop -/

theorem pySplitDot_fmt_general (b : String) (i : Int) :
    pySplitDot (fmtFilename b i) = pySplitDot b ++ [intRepr i, "h5"] := by
  rw [pySplitDot, data_fmtFilename,
    chSplit_append_dot b.data ((intRepr i).data ++ '.' :: ['h', '5']),
    chSplit_append_dot (intRepr i).data ['h', '5'],
    chSplit_no_dot (intRepr i).data (intRepr_no_dot i),
    chSplit_no_dot ['h', '5'] (by decide)]
  rw [List.map_append]
  rfl

theorem mem_fmt_range (b : String) (hb : '.' ∉ b.data) (k j : Nat) :
    fmtFilename b (j : Int) ∈
      (List.range k).map (fun n : Nat => fmtFilename b (n : Int)) ↔ j < k := by
  constructor
  · intro h
    rcases List.mem_map.mp h with ⟨i, hi, he⟩
    rcases fmtFilename_inj b hb he
    exact List.mem_range.mp hi
  · intro h
    exact List.mem_map.mpr ⟨j, List.mem_range.mpr h, rfl⟩

theorem namingLoop_ok_not_mem (fs : FileSystem) (b : String) :
    ∀ (fuel : Nat) (f : String) (i : Int) (f' : String) (i' : Int),
      namingLoop fs b false fuel f i = .ok (f', i') → f' ∉ fs := by
  intro fuel
  induction fuel with
  | zero =>
      intro f i f' i' h
      rw [namingLoop] at h
      split at h
      · exact absurd h (by simp)
      · next hc =>
          simp only [PyResult.ok.injEq, Prod.mk.injEq] at h
          rcases h with ⟨rfl, rfl⟩
          intro hmem
          exact hc ⟨hmem, rfl⟩
  | succ fuel ih =>
      intro f i f' i' h
      rw [namingLoop] at h
      split at h
      · split at h
        · exact absurd h (by simp)
        · split at h
          · exact absurd h (by simp)
          · exact ih _ _ _ _ h
      · next hc =>
          simp only [PyResult.ok.injEq, Prod.mk.injEq] at h
          rcases h with ⟨rfl, rfl⟩
          intro hmem
          exact hc ⟨hmem, rfl⟩

theorem namingLoop_ok_shape (fs : FileSystem) (b : String) (ow : Bool) :
    ∀ (fuel : Nat) (i : Int) (f' : String) (i' : Int),
      namingLoop fs b ow fuel (fmtFilename b i) i = .ok (f', i') →
      f' = fmtFilename b i' := by
  intro fuel
  induction fuel with
  | zero =>
      intro i f' i' h
      rw [namingLoop] at h
      split at h
      · exact absurd h (by simp)
      · simp only [PyResult.ok.injEq, Prod.mk.injEq] at h
        rcases h with ⟨rfl, rfl⟩
        rfl
  | succ fuel ih =>
      intro i f' i' h
      rw [namingLoop] at h
      split at h
      · split at h
        · exact absurd h (by simp)
        · split at h
          · exact absurd h (by simp)
          · exact ih _ _ _ h
      · simp only [PyResult.ok.injEq, Prod.mk.injEq] at h
        rcases h with ⟨rfl, rfl⟩
        rfl

theorem namingLoop_range (b : String) (hb : '.' ∉ b.data) (k : Nat) :
    ∀ (fuel i : Nat), i ≤ k → k - i ≤ fuel →
      namingLoop ((List.range k).map (fun n : Nat => fmtFilename b (n : Int))) b false
          fuel (fmtFilename b (i : Int)) (i : Int) =
        .ok (fmtFilename b (k : Int), (k : Int)) := by
  intro fuel
  induction fuel with
  | zero =>
      intro i hik hfuel
      have hik2 : i = k := by omega
      subst hik2
      rw [namingLoop]
      rw [if_neg]
      intro hc
      exact absurd ((mem_fmt_range b hb i i).mp hc.1) (by omega)
  | succ fuel ih =>
      intro i hik hfuel
      by_cases hik2 : i = k
      · subst hik2
        rw [namingLoop]
        rw [if_neg]
        intro hc
        exact absurd ((mem_fmt_range b hb i i).mp hc.1) (by omega)
      · have hlt : i < k := by omega
        rw [namingLoop]
        rw [if_pos ⟨(mem_fmt_range b hb k i).mpr hlt, rfl⟩]
        rw [pySplitDot_fmtFilename b hb (i : Int), intRepr_coe_nat i]
        show (match pyIntStr (natRepr i) with
              | .error e => PyResult.err e
              | .ok p =>
                  namingLoop ((List.range k).map (fun n : Nat => fmtFilename b (n : Int)))
                    b false fuel (fmtFilename b (p + 1)) (p + 1)) = _
        rw [pyIntStr_natRepr i]
        have hcast : ((i : Int) + 1) = ((i + 1 : Nat) : Int) := by push_cast; ring
        show namingLoop ((List.range k).map (fun n : Nat => fmtFilename b (n : Int)))
            b false fuel (fmtFilename b ((i : Int) + 1)) ((i : Int) + 1) = _
        rw [hcast]
        exact ih (i + 1) (by omega) (by omega)

theorem namingLoop_bad_parse (fs : FileSystem) (b : String) (b0 s : String)
    (rest : List String) (hsplit : pySplitDot b = b0 :: s :: rest)
    (hbad : pyIntStr s = .error (.valueError s)) (i : Int) (fuel : Nat)
    (hmem : fmtFilename b i ∈ fs) (hfuel : 0 < fuel) :
    namingLoop fs b false fuel (fmtFilename b i) i = .err (.valueError s) := by
  obtain ⟨fuel, rfl⟩ : ∃ f, fuel = f + 1 := ⟨fuel - 1, by omega⟩
  rw [namingLoop, if_pos ⟨hmem, rfl⟩, pySplitDot_fmt_general b i, hsplit]
  show (match pyIntStr s with
        | .error e => PyResult.err e
        | .ok p =>
            namingLoop fs b false fuel (fmtFilename b (p + 1)) (p + 1)) = _
  rw [hbad]

/-! ### Supporting lemmas: `compute_estimators` always raises -/

theorem estimatorContribution_raises (e : Estimator) :
    estimatorContribution e = .error (.nameError "qmc") := rfl

theorem reduceStep_raises (self : HandlerState) :
    ∃ e : PyError, reduceStep self = .error e := by
  cases hl : self.local_estimates with
  | none =>
      refine ⟨.attributeError "local_estimates", ?_⟩
      simp only [reduceStep, hl]
  | some lbuf =>
      cases hg : self.global_estimates with
      | none =>
          refine ⟨.attributeError "global_estimates", ?_⟩
          simp only [reduceStep, hl, hg]
      | some g =>
          refine ⟨.nameError "MPI", ?_⟩
          simp only [reduceStep, hl, hg]
          rfl

theorem computeLoop_raises (self : HandlerState) (k : String) (e : Estimator)
    (rest : List (String × Estimator))
    (hest : self.estimators = (k, e) :: rest) :
    computeLoop self self.estimators = .error (.nameError "qmc") := by
  conv_lhs => rw [hest]
  rw [computeLoop, hest]
  have hlook : ((k, e) :: rest).lookup k = some e := by
    simp [List.lookup]
  rw [hlook]
  rfl

theorem computeEstimators_raises (rank : Nat) (self : HandlerState) :
    ∃ e : PyError, computeEstimators rank self = (.err e, []) := by
  cases hest : self.estimators with
  | nil =>
      have h1 : computeLoop self self.estimators = .ok self := by
        rw [hest]; rfl
      obtain ⟨er, her⟩ := reduceStep_raises self
      exact ⟨er, by simp only [computeEstimators, h1, her]⟩
  | cons p rest =>
      have h1 : computeLoop self self.estimators = .error (.nameError "qmc") :=
        computeLoop_raises self p.1 p.2 rest (by rw [hest])
      exact ⟨.nameError "qmc", by simp only [computeEstimators, h1]⟩

/-- A concrete handler state used by the witnesses. -/
def emptyHandler : HandlerState :=
  { index := none, filename := none, basename := none, estimators := [],
    output := none, buffer_size := none, local_estimates := none,
    global_estimates := none }

/-- Whether a construction result, when it is a successfully constructed
handler, left the output filename as Python `None`. -/
def okFilenameNone : PyResult HandlerState → Bool
  | .ok st => st.filename.isNone
  | _ => true

/-- Modelled from the spec: a concrete walker for the pipeline witnesses. -/
def witnessWalker : Walker :=
  { weight := (1, 0), energy := (0, 0), ovlp := (1, 0) }

/-- The 25-walker initial population of the end-to-end scenario witness. -/
def witnessPopulation : List Walker := List.replicate 25 witnessWalker

/-- A trivial per-walker dynamics used by the pipeline witnesses. -/
def witnessStep : Nat → Nat → Walker → Walker := fun _ _ w => w

/-! ### Claim theorems -/

/-- C1: for every shared per-walker dynamics (which the common random
seed, Hamiltonian and trial wavefunction determine), every initial walker
population and every number of steps, the batched pipeline and the legacy
single-walker-loop pipeline reach the same final population, and their
mixed-estimator energy numerator, energy denominator and total weight are
equal — exactly equal in the rational model, hence equal to every
floating-point tolerance in both real and imaginary parts. -/
theorem C1_batched_eq_legacy_pipeline
    (step : Nat → Nat → Walker → Walker) (nsteps : Nat) (init : List Walker) :
    runBatched step nsteps init = runLegacy step nsteps init ∧
    mixedNumerBatched (runBatched step nsteps init) =
      mixedNumerLegacy (runLegacy step nsteps init) ∧
    mixedDenomBatched (runBatched step nsteps init) =
      mixedDenomLegacy (runLegacy step nsteps init) ∧
    totalWeightBatched (runBatched step nsteps init) =
      totalWeightLegacy (runLegacy step nsteps init) := by
  have h : runBatched step nsteps init = runLegacy step nsteps init :=
    runBatchedFrom_eq_legacy step 0 nsteps init
  refine ⟨h, ?_, ?_, ?_⟩
  · rw [h, mixedNumerBatched_eq_legacy]
  · rw [h, mixedDenomBatched_eq_legacy]
  · rw [h, totalWeightBatched_eq_legacy]

/-- C2 counterexample: the end-to-end cross-validation scenario of
`test_afqmc_multi_det_batch.py` runs 5 blocks (module constant
`blocks = 5`), not the 25 blocks the claim states. -/
theorem C2_counterexample_blocks :
    testAfqmcMultiDetBatch.blocks = 5 ∧ testAfqmcMultiDetBatch.blocks ≠ 25 := by
  exact ⟨rfl, by decide⟩

/-- C2 (amended): in the end-to-end scenario — seed 7, 3-orbital generic
Hamiltonian, 2 up / 1 down electrons, 25 walkers, FIVE blocks of 25 steps,
timestep 0.005, 5-determinant multi-determinant trial, pair-branch
population control every step, energy evaluation every step — for every
per-walker dynamics shared through the common seed/Hamiltonian/trial and
every initial population of 25 walkers, the recorded per-block data of the
batched and the reference (legacy) implementations coincide, and in
particular the means over all blocks except the final one of the total
energy, the weight and the overlap are equal (exactly, hence to
`pytest.approx` tolerance). -/
theorem C2_blocked_scenario_agreement
    (step : Nat → Nat → Walker → Walker) (init : List Walker)
    (_hlen : init.length = testAfqmcMultiDetBatch.nwalkers) :
    runBlocksBatched step testAfqmcMultiDetBatch.steps
        testAfqmcMultiDetBatch.blocks 0 init =
      runBlocksLegacy step testAfqmcMultiDetBatch.steps
        testAfqmcMultiDetBatch.blocks 0 init ∧
    meanQ (((runBlocksBatched step testAfqmcMultiDetBatch.steps
        testAfqmcMultiDetBatch.blocks 0 init).dropLast).map
          (fun r => r.etotal.1)) =
      meanQ (((runBlocksLegacy step testAfqmcMultiDetBatch.steps
        testAfqmcMultiDetBatch.blocks 0 init).dropLast).map
          (fun r => r.etotal.1)) ∧
    meanQ (((runBlocksBatched step testAfqmcMultiDetBatch.steps
        testAfqmcMultiDetBatch.blocks 0 init).dropLast).map
          (fun r => r.weight.1)) =
      meanQ (((runBlocksLegacy step testAfqmcMultiDetBatch.steps
        testAfqmcMultiDetBatch.blocks 0 init).dropLast).map
          (fun r => r.weight.1)) ∧
    meanQ (((runBlocksBatched step testAfqmcMultiDetBatch.steps
        testAfqmcMultiDetBatch.blocks 0 init).dropLast).map
          (fun r => r.ovlp.1)) =
      meanQ (((runBlocksLegacy step testAfqmcMultiDetBatch.steps
        testAfqmcMultiDetBatch.blocks 0 init).dropLast).map
          (fun r => r.ovlp.1)) := by
  have h := runBlocksBatched_eq_legacy step testAfqmcMultiDetBatch.steps
    testAfqmcMultiDetBatch.blocks 0 init
  exact ⟨h, by rw [h], by rw [h], by rw [h]⟩

/-- C2 witness: the amended scenario equality instantiated at a concrete
dynamics and a concrete 25-walker population. -/
theorem C2_blocked_scenario_agreement_witness :
    runBlocksBatched witnessStep testAfqmcMultiDetBatch.steps
        testAfqmcMultiDetBatch.blocks 0 witnessPopulation =
      runBlocksLegacy witnessStep testAfqmcMultiDetBatch.steps
        testAfqmcMultiDetBatch.blocks 0 witnessPopulation ∧
    meanQ (((runBlocksBatched witnessStep testAfqmcMultiDetBatch.steps
        testAfqmcMultiDetBatch.blocks 0 witnessPopulation).dropLast).map
          (fun r => r.etotal.1)) =
      meanQ (((runBlocksLegacy witnessStep testAfqmcMultiDetBatch.steps
        testAfqmcMultiDetBatch.blocks 0 witnessPopulation).dropLast).map
          (fun r => r.etotal.1)) ∧
    meanQ (((runBlocksBatched witnessStep testAfqmcMultiDetBatch.steps
        testAfqmcMultiDetBatch.blocks 0 witnessPopulation).dropLast).map
          (fun r => r.weight.1)) =
      meanQ (((runBlocksLegacy witnessStep testAfqmcMultiDetBatch.steps
        testAfqmcMultiDetBatch.blocks 0 witnessPopulation).dropLast).map
          (fun r => r.weight.1)) ∧
    meanQ (((runBlocksBatched witnessStep testAfqmcMultiDetBatch.steps
        testAfqmcMultiDetBatch.blocks 0 witnessPopulation).dropLast).map
          (fun r => r.ovlp.1)) =
      meanQ (((runBlocksLegacy witnessStep testAfqmcMultiDetBatch.steps
        testAfqmcMultiDetBatch.blocks 0 witnessPopulation).dropLast).map
          (fun r => r.ovlp.1)) :=
  C2_blocked_scenario_agreement witnessStep witnessPopulation rfl

/-- C3: for every fixed walker batch, Hamiltonian and trial data (the
one-body terms and per-Cholesky-vector contributions), the chunked
strategy returns the same per-walker energies as the direct strategy for
every memory budget — shrinking the budget changes only the chunk passes,
never the result — and the accelerated strategy (direct composed with the
semantics-preserving accelerator cast) equals the direct strategy as
well. -/
theorem C3_local_energy_strategies_agree
    (e1 : Nat → Cplx) (twoBody : Nat → Nat → Cplx) (nchol nwalkers : Nat)
    (max_mem bytes_per_chol : ℚ) :
    localEnergyChunked e1 twoBody nchol nwalkers max_mem bytes_per_chol =
      localEnergyDirect e1 twoBody nchol nwalkers ∧
    localEnergyAccel e1 twoBody nchol nwalkers =
      localEnergyDirect e1 twoBody nchol nwalkers := by
  constructor
  · simp only [localEnergyChunked, localEnergyDirect, sum_chunksOf]
  · rfl

/-- C4: with an observable name outside the predefined set (here
`"banana"`), setup does fail — but with a `NameError` on the unbound name
`predefined_estimators` (the module only binds
`_predefined_estimators`), not with an error message naming the unknown
observable as the claim states. -/
theorem C4_unknown_observable_gets_NameError :
    estimatorHandlerInit 0 { observables := some [("banana", [])] } [] 1 =
      (.err (.nameError "predefined_estimators"),
       [FileOp.create "options.0.h5"]) ∧
    PyError.nameError "predefined_estimators" ≠
      PyError.runtimeError ("unknown observable: " ++ "banana") := by
  exact ⟨rfl, by decide⟩

/-- C5: `"energy"` is a predefined estimator name, yet constructing the
handler with the default observables mapping `{"energy": {}}` raises the
same `NameError` instead of succeeding — the estimators dictionary is
never populated. -/
theorem C5_energy_construction_raises :
    estimatorHandlerInit 0 {} [] 1 =
      (.err (.nameError "predefined_estimators"),
       [FileOp.create "options.0.h5"]) ∧
    predefinedEstimatorsTable.lookup "energy" = some EnergyEstimator := by
  exact ⟨rfl, rfl⟩

/-- C6: no call to `compute_estimators` ever performs the claimed
write/reduce/output/zero sequence: for every rank and every handler state
the call raises a Python error having performed no file operation, and the
class does not even define a `zero` method. -/
theorem C6_compute_estimators_never_completes (rank : Nat)
    (self : HandlerState) :
    (computeEstimators rank self).1.isErr = true ∧
    (computeEstimators rank self).2 = [] ∧
    "zero" ∉ estimatorHandlerMethods := by
  obtain ⟨e, he⟩ := computeEstimators_raises rank self
  rw [he]
  exact ⟨rfl, rfl, by decide⟩

/-- C7: on every non-coordinating rank, construction, `setup_output` and
`compute_estimators` perform no file operation, and a successfully
constructed handler has `filename` equal to Python `None`. -/
theorem C7_nonzero_rank_never_touches_files (rank : Nat) (hrank : rank ≠ 0)
    (options : Options) (fs : FileSystem) (fuel : Nat)
    (self : HandlerState) :
    (estimatorHandlerInit rank options fs fuel).2 = [] ∧
    okFilenameNone (estimatorHandlerInit rank options fs fuel).1 = true ∧
    (setupOutput rank self).2 = [] ∧
    (computeEstimators rank self).2 = [] := by
  refine ⟨?_, ?_, ?_, ?_⟩
  · simp only [estimatorHandlerInit, if_neg hrank]
    cases hb : buildEstimators (options.observables.getD defaultObservables) with
    | error e => rfl
    | ok ests => rfl
  · simp only [estimatorHandlerInit, if_neg hrank]
    cases hb : buildEstimators (options.observables.getD defaultObservables) with
    | error e => rfl
    | ok ests => rfl
  · simp only [setupOutput, if_neg hrank]
  · obtain ⟨e, he⟩ := computeEstimators_raises rank self
    rw [he]

/-- C7 witness: the non-coordinating-rank guarantees instantiated at
rank 1 with default options, an empty file system and a concrete handler
state. -/
theorem C7_nonzero_rank_never_touches_files_witness :
    (estimatorHandlerInit 1 {} [] 1).2 = [] ∧
    okFilenameNone (estimatorHandlerInit 1 {} [] 1).1 = true ∧
    (setupOutput 1 emptyHandler).2 = [] ∧
    (computeEstimators 1 emptyHandler).2 = [] :=
  C7_nonzero_rank_never_touches_files 1 (by decide) {} [] 1 emptyHandler

/-- C8 counterexample: with no `overwrite` option given (so overwriting
was not explicitly permitted) and `options.0.h5` already existing,
construction keeps index 0 and truncates the existing file — the index is
not incremented and the existing file is overwritten, refuting the claim
as stated.  (The code defaults `overwrite` to `True`.) -/
theorem C8_counterexample_default_overwrites :
    estimatorHandlerInit 0 { observables := some [] } ["options.0.h5"] 1 =
      (.ok { index := some 0, filename := some "options.0.h5",
             basename := some "options", estimators := [], output := none,
             buffer_size := none, local_estimates := none,
             global_estimates := none },
       [FileOp.create "options.0.h5"]) ∧
    "options.0.h5" ∈ (["options.0.h5"] : FileSystem) ∧
    (({ observables := some [] } : Options)).overwrite = none := by
  exact ⟨rfl, by decide, rfl⟩

/-- C8 (amended): when no explicit filename is configured the handler
names its output file `<basename>.<index>.h5`; `overwrite` defaults to
`True`, so an existing file is overwritten unless `overwrite` is
explicitly disabled; when `overwrite` is explicitly `False` and
construction succeeds, the index-increment loop has produced a filename
that did not yet exist, so no existing file is overwritten. -/
theorem C8_overwrite_false_never_truncates_existing
    (options : Options) (fs : FileSystem) (fuel : Nat) (st : HandlerState)
    (tr : List FileOp) (hfn : options.filename = none)
    (how : options.overwrite = some false)
    (h : estimatorHandlerInit 0 options fs fuel = (.ok st, tr)) :
    st.filename =
      some (fmtFilename (options.basename.getD "options") (st.index.getD 0)) ∧
    fmtFilename (options.basename.getD "options") (st.index.getD 0) ∉ fs ∧
    tr = [FileOp.create
      (fmtFilename (options.basename.getD "options") (st.index.getD 0))] := by
  rw [estimatorHandlerInit, if_pos rfl] at h
  cases hn : initRank0Naming options fs fuel with
  | err e => rw [hn] at h; exact absurd h (by simp)
  | diverge => rw [hn] at h; exact absurd h (by simp)
  | ok p =>
      obtain ⟨f, i⟩ := p
      rw [hn] at h
      cases hb : buildEstimators (options.observables.getD defaultObservables) with
      | error e => rw [hb] at h; exact absurd h (by simp)
      | ok ests =>
          rw [hb] at h
          simp only [Prod.mk.injEq, PyResult.ok.injEq] at h
          obtain ⟨hst, htr⟩ := h
          rw [initRank0Naming, hfn, how] at hn
          have hshape : f = fmtFilename (options.basename.getD "options") i :=
            namingLoop_ok_shape fs (options.basename.getD "options") false fuel
              (options.index.getD 0) f i hn
          have hfresh : f ∉ fs :=
            namingLoop_ok_not_mem fs (options.basename.getD "options") fuel
              (fmtFilename (options.basename.getD "options")
                (options.index.getD 0)) (options.index.getD 0) f i hn
          have hidx : st.index = some i := by rw [← hst]
          have hfile : st.filename = some f := by rw [← hst]
          rw [hidx, hfile]
          simp only [Option.getD_some]
          exact ⟨by rw [hshape], by rw [← hshape]; exact hfresh,
            by rw [← htr, hshape]⟩

/-- C8 witness: with `overwrite` explicitly disabled and `options.0.h5`
existing, construction produces the fresh name `options.1.h5` and
overwrites nothing. -/
theorem C8_overwrite_false_never_truncates_existing_witness :
    (some "options.1.h5" : Option String) =
      some (fmtFilename "options" 1) ∧
    fmtFilename "options" 1 ∉ (["options.0.h5"] : FileSystem) ∧
    [FileOp.create "options.1.h5"] =
      [FileOp.create (fmtFilename "options" 1)] := by
  have h := C8_overwrite_false_never_truncates_existing
    { overwrite := some false, observables := some [] } ["options.0.h5"] 2
    { index := some 1, filename := some "options.1.h5",
      basename := some "options", estimators := [], output := none,
      buffer_size := none, local_estimates := none, global_estimates := none }
    [FileOp.create "options.1.h5"] rfl rfl rfl
  exact h

/-- C9: the estimator offset/shape bookkeeping cannot uphold the claimed
offset invariant because it is unusable: line 144 declares
`EstimatorHelper` with `def`, so calling it raises `NameError` on the
eagerly evaluated `EstimatorBase` annotation and no instance with a
`push` method exists; and the `push` body itself always raises
`AttributeError` on `self._offsets` (the constructor assigned `_offset`),
so no offset is ever assigned to any estimator. -/
theorem C9_helper_push_always_raises :
    (∀ x : Unit, EstimatorHelperFn x = .error (.nameError "EstimatorBase")) ∧
    (∀ (s : HelperState) (n : String) (e : Estimator),
        helperPush s n e = .error (.attributeError "_offsets")) ∧
    "_offsets" ∉ helperAssignedAttrs := by
  exact ⟨fun _ => rfl, fun _ _ _ => rfl, by decide⟩

/-- C10 counterexample: for the dotted basename `"a.3"` with
`a.3.0.h5` existing and overwrite disabled, the parse succeeds
(`int("3") = 3`) and the loop terminates with the fresh name
`a.3.4.h5` — it does not fail, refuting the second half of the claim as
stated. -/
theorem C10_counterexample_dotted_basename_finds_fresh_name :
    initRank0Naming { basename := some "a.3", overwrite := some false }
        ["a.3.0.h5"] 3 = .ok ("a.3.4.h5", 4) ∧
    '.' ∈ ("a.3" : String).data ∧
    "a.3.4.h5" ∉ (["a.3.0.h5"] : FileSystem) := by
  exact ⟨rfl, by decide, by decide⟩

/-- C10 (amended): the loop parses the second dot-separated component of
the filename with `int`.  For every basename with no dot, overwrite
disabled and files `<basename>.i.h5` existing exactly for
`i = 0, …, k-1`, construction on rank 0 (with an empty observables
mapping, so that the separate estimator-table defect does not abort it)
terminates with index `k`, filename `<basename>.k.h5`, and creates
exactly that file; a basename whose second dot-separated component
contains an ASCII letter — a character that can occur in no integer
literal, unlike signs, underscores or whitespace — makes the parse raise
`ValueError`, so the loop fails instead of finding a fresh name, while a
basename whose second component does parse as an integer merely makes the
loop skip indices (see the counterexample). -/
theorem C10_index_parse_behaviour :
    (∀ (b : String) (k fuel : Nat), '.' ∉ b.data → k ≤ fuel →
        estimatorHandlerInit 0
            { basename := some b, overwrite := some false,
              observables := some [] }
            ((List.range k).map (fun n : Nat => fmtFilename b (n : Int)))
            fuel =
          (.ok { index := some (k : Int),
                 filename := some (fmtFilename b (k : Int)),
                 basename := some b, estimators := [], output := none,
                 buffer_size := none, local_estimates := none,
                 global_estimates := none },
           [FileOp.create (fmtFilename b (k : Int))])) ∧
    (∀ (b b0 s : String) (rest : List String) (fs : FileSystem) (fuel : Nat),
        pySplitDot b = b0 :: s :: rest →
        (∃ c ∈ s.data, isAsciiLetter c) →
        fmtFilename b 0 ∈ fs → 0 < fuel →
        estimatorHandlerInit 0
            { basename := some b, overwrite := some false,
              observables := some [] } fs fuel =
          (.err (.valueError s), [])) := by
  constructor
  · intro b k fuel hb hfuel
    have hloop := namingLoop_range b hb k fuel 0 (by omega) (by omega)
    rw [estimatorHandlerInit, if_pos rfl]
    rw [show initRank0Naming
          { basename := some b, overwrite := some false, observables := some [] }
          ((List.range k).map (fun n : Nat => fmtFilename b (n : Int))) fuel =
        namingLoop ((List.range k).map (fun n : Nat => fmtFilename b (n : Int)))
          b false fuel (fmtFilename b ((0 : Nat) : Int)) ((0 : Nat) : Int)
        from rfl]
    rw [hloop]
    rfl
  · intro b b0 s rest fs fuel hsplit hlet hmem hfuel
    have hbad := pyIntStr_letter s hlet
    have hloop := namingLoop_bad_parse fs b b0 s rest hsplit hbad 0 fuel hmem hfuel
    rw [estimatorHandlerInit, if_pos rfl]
    rw [show initRank0Naming
          { basename := some b, overwrite := some false, observables := some [] }
          fs fuel =
        namingLoop fs b false fuel (fmtFilename b 0) 0 from rfl]
    rw [hloop]

/-- C10 witness: the amended behaviour at concrete inputs — basename
`"run"` with `run.0.h5` and `run.1.h5` existing terminates with
`run.2.h5`, and basename `"my.base"` (letters in the second component)
with `my.base.0.h5` existing raises `ValueError` on the literal
`"base"`. -/
theorem C10_index_parse_behaviour_witness :
    estimatorHandlerInit 0
        { basename := some "run", overwrite := some false,
          observables := some [] }
        ((List.range 2).map (fun n : Nat => fmtFilename "run" (n : Int))) 2 =
      (.ok { index := some ((2 : Nat) : Int),
             filename := some (fmtFilename "run" ((2 : Nat) : Int)),
             basename := some "run", estimators := [], output := none,
             buffer_size := none, local_estimates := none,
             global_estimates := none },
       [FileOp.create (fmtFilename "run" ((2 : Nat) : Int))]) ∧
    estimatorHandlerInit 0
        { basename := some "my.base", overwrite := some false,
          observables := some [] } ["my.base.0.h5"] 1 =
      (.err (.valueError "base"), []) := by
  constructor
  · exact C10_index_parse_behaviour.1 "run" 2 2 (by decide) (by decide)
  · exact C10_index_parse_behaviour.2 "my.base" "my" "base" []
      ["my.base.0.h5"] 1 (by decide) (by decide) (by decide) (by decide)

end Ipie
